import Mathlib

/-!
Verification of the video-generation pipeline (worker.py, utils.py, bulk.py).

Strings are modelled as `List Char`.  Python's `int(...)` applied to the
non-negative arithmetic expressions appearing in the progress computations is
modelled by exact natural-number floor division (the expressions involved are
compositions of monotone operations on small non-negative quantities, for which
floating-point evaluation and exact evaluation agree on the ordering and bound
properties proved here).
-/

set_option maxHeartbeats 1000000

namespace VideoGen

/-! ### Character classes (Python `\s`, sentence punctuation) -/

/-- Python whitespace characters (`\s` for the ASCII range, `str.split()`/`str.strip()`). -/
def isSpaceChar (c : Char) : Bool :=
  c = ' ' || c = '\t' || c = '\n' || c = '\r' || c = '\x0b' || c = '\x0c'

/-- Sentence-ending punctuation of the regex `[^\.!\?]+[\.!\?]+(?:\s|$)` in
`utils.split_text_into_chunks`. -/
def isSentencePunct (c : Char) : Bool :=
  c = '.' || c = '!' || c = '?'

/-! ### utils.split_text_into_chunks (utils.py lines 207-255) -/

/-- Model of `raw.replace("\\n", "\n")` (utils.py line 227): the two-character
sequence backslash-`n` becomes a newline, scanning left to right without overlap. -/
def replaceEscapedNewlines : List Char → List Char
  | [] => []
  | '\\' :: 'n' :: rest => '\n' :: replaceEscapedNewlines rest
  | c :: rest => c :: replaceEscapedNewlines rest

/-- Model of `re.sub(r"\s+", " ", cleaned)` (utils.py line 228): every maximal
run of whitespace becomes a single space.  The flag records whether the
previous character belonged to a whitespace run. -/
def collapseWSAux : Bool → List Char → List Char
  | _, [] => []
  | prevSpace, c :: rest =>
    if isSpaceChar c then
      if prevSpace then collapseWSAux true rest
      else ' ' :: collapseWSAux true rest
    else c :: collapseWSAux false rest

/-- Whitespace collapsing entry point (utils.py line 228). -/
def collapseWS (l : List Char) : List Char :=
  collapseWSAux false l

/-- Model of Python `str.strip()`: remove leading and trailing whitespace. -/
def stripWS (l : List Char) : List Char :=
  ((l.dropWhile isSpaceChar).reverse.dropWhile isSpaceChar).reverse

/-- Text normalisation of `split_text_into_chunks` (utils.py lines 226-229):
unescape literal newlines, collapse whitespace runs, strip. -/
def cleanText (l : List Char) : List Char :=
  stripWS (collapseWS (replaceEscapedNewlines l))

/-- Model of Python `str.split()` (no separator argument): maximal runs of
non-whitespace characters, in order; `acc` holds the current word reversed. -/
def splitWordsAux (acc : List Char) : List Char → List (List Char)
  | [] => if acc.isEmpty then [] else [acc.reverse]
  | c :: rest =>
    if isSpaceChar c then
      if acc.isEmpty then splitWordsAux [] rest
      else acc.reverse :: splitWordsAux [] rest
    else splitWordsAux (c :: acc) rest

/-- Python `str.split()`. -/
def splitWords (l : List Char) : List (List Char) :=
  splitWordsAux [] l

/-- Model of Python `" ".join(words)` (utils.py lines 244, 249). -/
def joinSp : List (List Char) → List Char
  | [] => []
  | [w] => w
  | w :: v :: ws => w ++ ' ' :: joinSp (v :: ws)

/-- One attempted match of the sentence regex `[^\.!\?]+[\.!\?]+(?:\s|$)` at the
start of `s`: a nonempty run of non-punctuation characters, a nonempty run of
sentence punctuation, then either end of input or one whitespace character
(consumed as part of the match).  Backtracking cannot rescue a failed attempt
(shrinking either greedy run leaves a character that the next atom rejects), so
the overall regex semantics is this single greedy attempt. -/
def matchSentenceAt (s : List Char) : Option (List Char × List Char) :=
  let a := s.takeWhile (fun c => !isSentencePunct c)
  if a.isEmpty then none
  else
    let r1 := s.dropWhile (fun c => !isSentencePunct c)
    let b := r1.takeWhile isSentencePunct
    if b.isEmpty then none
    else
      let r2 := r1.dropWhile isSentencePunct
      match r2 with
      | [] => some (a ++ b, [])
      | c :: tl => if isSpaceChar c then some (a ++ b ++ [c], tl) else none

/-- Scan of `re.findall` for the sentence regex: on a failed match the scan
advances one character, on a successful match it resumes after the match.  The
fuel argument is initialised to the input length; every step consumes at least
one character and one unit of fuel, so the fuel never runs out early. -/
def findSentencesAux : Nat → List Char → List (List Char)
  | 0, _ => []
  | _ + 1, [] => []
  | fuel + 1, c :: tl =>
    match matchSentenceAt (c :: tl) with
    | some (m, rest) => m :: findSentencesAux fuel rest
    | none => findSentencesAux fuel tl

/-- Model of `re.findall(r'[^\.!\?]+[\.!\?]+(?:\s|$)', cleaned)` (utils.py line 232). -/
def findSentences (s : List Char) : List (List Char) :=
  findSentencesAux s.length s

/-- Model of the Python slice `l[:n]`, including the negative-index case
(`l[:n]` with `n < 0` keeps all but the last `-n` elements). -/
def pySlice (l : List α) (n : Int) : List α :=
  if 0 ≤ n then l.take n.toNat else l.take (l.length - (-n).toNat)

/-- One iteration of the chunking loop (utils.py lines 237-245).  The state is
`(chunks, current_words)`; the sentence is stripped and split into words; if the
words fit within `word_limit` together with `current_words` they are appended,
otherwise the current chunk is sealed (words joined with single spaces) and the
sentence starts a new chunk. -/
def chunkStep (word_limit : Nat) (st : List (List Char) × List (List Char))
    (sentence : List Char) : List (List Char) × List (List Char) :=
  let sw := splitWords (stripWS sentence)
  if st.2.length + sw.length ≤ word_limit then (st.1, st.2 ++ sw)
  else (st.1 ++ [joinSp st.2], sw)

/-- Model of `utils.split_text_into_chunks(text, chunks_count, word_limit)`
(utils.py lines 207-255): clean the text, extract sentences, greedily pack
sentences into word-bounded chunks, append the trailing chunk if nonempty, and
finally return all chunks when `chunks_count == -1` or the slice
`chunks[:chunks_count]` otherwise. -/
def split_text_into_chunks (text : List Char) (chunks_count : Int) (word_limit : Nat) :
    List (List Char) :=
  let cleaned := cleanText text
  let sentences := findSentences cleaned
  let st := sentences.foldl (chunkStep word_limit) ([], [])
  let chunks := if st.2.isEmpty then st.1 else st.1 ++ [joinSp st.2]
  if chunks_count = -1 then chunks else pySlice chunks chunks_count

/-- A word produced by `str.split()`: nonempty and free of whitespace. -/
def goodWord (w : List Char) : Prop :=
  w ≠ [] ∧ ∀ c ∈ w, isSpaceChar c = false

/-- The word-limit property of one chunk: it has at most `wl` words, or its
words are exactly the words of a single oversized sentence of `S`. -/
def chunkWithinLimit (wl : Nat) (S : List (List Char)) (chunk : List Char) : Prop :=
  (splitWords chunk).length ≤ wl ∨
    ∃ s ∈ S, splitWords chunk = splitWords (stripWS s) ∧
      wl < (splitWords (stripWS s)).length

/-! ### Retry wrappers (worker.py `_safe_api_call` lines 134-155 and
`_safe_requests_call` lines 287-322) -/

/-- Python exception classes relevant to the retry wrappers.
`requests.exceptions.ConnectionError` is a subclass of
`requests.exceptions.RequestException`, so `_safe_api_call`'s
`except RequestException` clause also catches connection errors. -/
inductive PyErr
  | timeout
  | requestErr (msg : List Char)
  | connectionErr (msg : List Char)
  | other (msg : List Char)
deriving DecidableEq

/-- Errors retried by `_safe_api_call` (worker.py lines 143-152):
`requests.exceptions.Timeout` and `requests.exceptions.RequestException`
(which includes connection errors); any other exception is re-raised at once. -/
def apiRetryable : PyErr → Bool
  | PyErr.timeout => true
  | PyErr.requestErr _ => true
  | PyErr.connectionErr _ => true
  | PyErr.other _ => false

/-- Errors retried by `_safe_requests_call` (worker.py lines 308-312):
`requests.exceptions.Timeout` and `requests.exceptions.ConnectionError` only;
an HTTP error raised by `raise_for_status` propagates immediately. -/
def reqRetryable : PyErr → Bool
  | PyErr.timeout => true
  | PyErr.connectionErr _ => true
  | _ => false

/-- Observable events of a retry loop: invoking the wrapped callable for a
given 0-indexed attempt, and sleeping for a backoff delay (`time.sleep`). -/
inductive TraceEv
  | call (attempt : Nat)
  | sleep (seconds : Nat)
deriving DecidableEq

/-- Shared shape of the two retry loops
(`for attempt in range(max_retries): ...`).  The wrapped callable is modelled
as a function from the attempt number to its outcome.  `fuel` is the number of
remaining iterations (`max_retries - attempt`); the cancellation check at the
top of each iteration raises a plain `Exception`, which neither loop retries.
When the loop exhausts without returning or raising, Python falls through and
returns `None`, modelled as `Except.ok none`.  After a retryable failure that
is not the last attempt the loop sleeps `2 ** attempt` seconds
(worker.py lines 147, 152, 312). -/
def retryLoop (retryable : PyErr → Bool) (cancelled : Bool)
    (f : Nat → Except PyErr α) (maxRetries : Nat) :
    Nat → Nat → List TraceEv × Except PyErr (Option α)
  | 0, _ => ([], Except.ok none)
  | fuel + 1, attempt =>
    if cancelled then ([], Except.error (PyErr.other ("Operation cancelled by user".data)))
    else
      match f attempt with
      | Except.ok a => ([TraceEv.call attempt], Except.ok (some a))
      | Except.error e =>
        if retryable e then
          if attempt = maxRetries - 1 then ([TraceEv.call attempt], Except.error e)
          else
            let r := retryLoop retryable cancelled f maxRetries fuel (attempt + 1)
            (TraceEv.call attempt :: TraceEv.sleep (2 ^ attempt) :: r.1, r.2)
        else ([TraceEv.call attempt], Except.error e)

/-- Model of `GenerationWorker._safe_api_call` (worker.py lines 134-155),
returning the event trace together with the outcome. -/
def safe_api_call (cancelled : Bool) (maxRetries : Nat) (f : Nat → Except PyErr α) :
    List TraceEv × Except PyErr (Option α) :=
  retryLoop apiRetryable cancelled f maxRetries maxRetries 0

/-- Model of `GenerationWorker._safe_requests_call` (worker.py lines 287-322);
the surrounding try/finally only closes the session and re-raises. -/
def safe_requests_call (cancelled : Bool) (maxRetries : Nat) (f : Nat → Except PyErr α) :
    List TraceEv × Except PyErr (Option α) :=
  retryLoop reqRetryable cancelled f maxRetries maxRetries 0

/-- Trace of a run in which every attempt fails with a retryable error:
attempts `a, a+1, ...` with a sleep of `2 ^ k` seconds after each failed
attempt `k` except the last. -/
def expectedTrace : Nat → Nat → List TraceEv
  | _, 0 => []
  | a, 1 => [TraceEv.call a]
  | a, fuel + 2 =>
    TraceEv.call a :: TraceEv.sleep (2 ^ a) :: expectedTrace (a + 1) (fuel + 1)

/-- Number of invocations of the wrapped callable recorded in a trace. -/
def callCount (tr : List TraceEv) : Nat :=
  (tr.filter (fun ev => match ev with | TraceEv.call _ => true | _ => false)).length

/-- Backoff delay slept immediately before attempt `k` in a trace: the seconds
of a sleep event directly preceding `call k`, and `0` when attempt `k` is not
preceded by a sleep (in particular before the first attempt). -/
def delayBefore : List TraceEv → Nat → Nat
  | [], _ => 0
  | TraceEv.sleep d :: TraceEv.call j :: rest, k =>
    if j = k then d else delayBefore (TraceEv.call j :: rest) k
  | _ :: rest, k => delayBefore rest k

/-! ### Parallel audio stage (worker.py `_generate_audio_parallel` lines 228-285,
`_generate_single_audio` lines 184-226) -/

/-- Model of `GenerationWorker._generate_audio_parallel`.  `n` is the number of
audio chunks; `ok i` says whether task `i` succeeds (`_generate_single_audio`
catches every exception and returns `(idx, False, str(e))`, so a failing task
still returns normally and its sibling tasks are never cancelled);
`completionOrder` is the order in which `as_completed` yields the `n` futures
(an arbitrary permutation of the submitted indices).  All submitted tasks run
to completion (first component); `failed_tasks` collects the failing indices in
completion order, and if any task failed the stage raises an aggregate error
carrying the 1-based failed indices (worker.py lines 270-272; turning them into
a comma-joined message string is presentational).  Otherwise the post-hoc file
check runs: task `i` wrote `audio<i+1>.wav` exactly when it succeeded, so a
file is missing exactly for a failed task. -/
def generate_audio_parallel (n : Nat) (ok : Nat → Bool) (completionOrder : List Nat) :
    List Nat × Except (List Nat) Unit :=
  let failedIndices := (completionOrder.filter (fun i => !ok i)).map (fun i => i + 1)
  let missing := ((List.range n).filter (fun i => !ok i)).map (fun i => i + 1)
  (completionOrder,
    if failedIndices.isEmpty then
      if missing.isEmpty then Except.ok () else Except.error missing
    else Except.error failedIndices)

/-! ### Progress emissions of GenerationWorker.run (worker.py lines 324-719) -/

/-- Progress values emitted by one loop-shaped stage: iteration `i` (0-indexed)
emits `int(base + (i+1) / n * span)`, modelled as exact floor division. -/
def stageSeg (base span n : Nat) : List Nat :=
  (List.range n).map (fun i => base + span * (i + 1) / n)

/-- Complete sequence of values emitted on `progress_update` during one
successful `GenerationWorker.run`, in emission order (worker.py lines 348, 368,
392, 414, 463, 520, 214, 611, 681, 718): 5 after initialisation, 6 after the
intro script, `int(6 + idx/loop_length*3)` per looping script, 10 after the
outro, 25 after the thumbnail, `int(25 + (idx+1)/nImages*20)` per image,
`int(45 + completed/nAudio*20)` per audio clip (the completed counter is
incremented under `audio_progress_lock`, so the interleaved parallel emissions
carry the values for `completed = 1, ..., nAudio` in this order), 65 after the
duration probe, `int(65 + idx/nImages*25)` per video clip, and 100 at the end.
`nImages` is the length of `image_chunks` (used both by the image stage and as
`num_images` in video assembly) and `nAudio` the length of `audio_chunks`. -/
def runProgressSeq (loopLength nImages nAudio : Nat) : List Nat :=
  [5, 6] ++ (stageSeg 6 3 loopLength ++ ([10, 25] ++ (stageSeg 25 20 nImages ++
    (stageSeg 45 20 nAudio ++ ([65] ++ (stageSeg 65 25 nImages ++ [100]))))))

/-! ### Batch driver (bulk.py `BulkGenerationWorker` lines 27-300) -/

/-- End-to-end outcome of one batch item, abstracting the external services:
validation failure, generation failure (the `error_occurred` path of the
`GenerationWorker`), upload failure, or success of both generation and upload
(carrying the resulting video URL). -/
inductive ItemOutcome
  | validationFail
  | generationFail (msg : List Char)
  | uploadFail (msg : List Char)
  | uploadSuccess (url : List Char)
deriving DecidableEq

/-- Mutable state of `BulkGenerationWorker` while the batch advances:
terminal status and worker-construction flag per processed item (in input
order), the success/failure counters, and the accumulated error messages. -/
structure BatchState where
  statuses : List (List Char)
  workerCreated : List Bool
  successful : Nat
  failed : Nat
  errorMessages : List (List Char)
deriving DecidableEq

/-- Final report of a batch run (bulk.py lines 78-91): item count and the
counters, plus the per-item terminal data. -/
structure BatchReport where
  total : Nat
  successful : Nat
  failed : Nat
  statuses : List (List Char)
  workerCreated : List Bool
deriving DecidableEq

/-- Effect of processing one item (bulk.py `process_next_item` lines 94-160 and
the three completion handlers lines 209-300).  A validation failure sets status
`Error (Validation)`, counts as failed, and never constructs a
`GenerationWorker` (lines 104-114).  Otherwise a `GenerationWorker` is
constructed and started (lines 144-160); a generation or upload error sets
status `Error` and counts as failed (`on_item_error`, lines 282-300); success
of generation and upload sets status `Completed` and counts as successful
(`on_item_finished`, lines 266-280).  In every case the index advances and the
next item is processed. -/
def processItem (st : BatchState) (item : ItemOutcome) : BatchState :=
  match item with
  | ItemOutcome.validationFail =>
    { st with
      statuses := st.statuses ++ ["Error (Validation)".data]
      workerCreated := st.workerCreated ++ [false]
      failed := st.failed + 1
      errorMessages := st.errorMessages ++ ["Validation failed".data] }
  | ItemOutcome.generationFail msg =>
    { st with
      statuses := st.statuses ++ ["Error".data]
      workerCreated := st.workerCreated ++ [true]
      failed := st.failed + 1
      errorMessages := st.errorMessages ++ [msg] }
  | ItemOutcome.uploadFail msg =>
    { st with
      statuses := st.statuses ++ ["Error".data]
      workerCreated := st.workerCreated ++ [true]
      failed := st.failed + 1
      errorMessages := st.errorMessages ++ [msg] }
  | ItemOutcome.uploadSuccess _ =>
    { st with
      statuses := st.statuses ++ ["Completed".data]
      workerCreated := st.workerCreated ++ [true]
      successful := st.successful + 1 }

/-- The one-at-a-time item loop of `BulkGenerationWorker.process_next_item`:
each item reaches a terminal state before the next starts, and when the index
passes the end the summary report is produced (bulk.py lines 78-92). -/
def process_next_item (outcomes : List ItemOutcome) (st : BatchState) : BatchReport :=
  match outcomes with
  | [] =>
    { total := st.statuses.length
      successful := st.successful
      failed := st.failed
      statuses := st.statuses
      workerCreated := st.workerCreated }
  | o :: rest => process_next_item rest (processItem st o)

/-- Model of `BulkGenerationWorker.run` (bulk.py lines 56-70): counters reset,
then the items are processed one by one. -/
def run_bulk_generation (outcomes : List ItemOutcome) : BatchReport :=
  process_next_item outcomes ⟨[], [], 0, 0, []⟩

/-! ### Terminal finished event (worker.py `run` finally block lines 749-757) -/

/-- Modelled from the spec: `get_first_paragraph` is imported by worker.py
(line 2) from the utilities module but its definition is absent from the
sources; per the spec the pipeline "returns a short description derived from
the first paragraph of the intro script".  Modelled as the prefix of the text
up to (excluding) the first blank line (two consecutive newlines), or the whole
text when no blank line occurs. -/
def get_first_paragraph : List Char → List Char
  | [] => []
  | c :: rest =>
    if c = '\n' ∧ rest.head? = some '\n' then []
    else c :: get_first_paragraph rest

/-- Terminal `finished` emissions of `GenerationWorker.run` (worker.py
lines 749-757): exactly one event is emitted; when the intro script was
generated (always the case for a fully successful run) it carries
`get_first_paragraph(intro_script)`, otherwise the degraded placeholder
`"Generation failed"`. -/
def run_terminal_events (introScript : Option (List Char)) : List (List Char) :=
  match introScript with
  | some s => [get_first_paragraph s]
  | none => ["Generation failed".data]

/-! ### Upload hand-off paths (bulk.py `on_item_generation_finished`
lines 209-256, `process_next_item` lines 144-151) -/

/-- Python `title.replace(' ', '-')`: every space becomes a dash. -/
def replaceSpaceDash (l : List Char) : List Char :=
  l.map (fun c => if c = ' ' then '-' else c)

/-- POSIX `os.path.join` for a relative second component. -/
def pathJoin (dir file : List Char) : List Char :=
  dir ++ '/' :: file

/-- Video path handed to the upload step (bulk.py line 216): built from the
preset file's `video_title` with spaces replaced by dashes.  The batch item's
own title (first argument) is in scope in `on_item_generation_finished` but
unused by this computation. -/
def upload_video_path (itemTitle presetTitle : List Char) : List Char :=
  pathJoin (replaceSpaceDash presetTitle) ("final_slideshow_with_audio.mp4".data)

/-- Thumbnail path handed to the upload step (bulk.py line 217): built from the
preset file's `video_title` unmodified. -/
def upload_thumbnail_path (itemTitle presetTitle : List Char) : List Char :=
  pathJoin presetTitle ("thumbnail.jpg".data)

/-- Output directory used by the generation run for a batch item
(bulk.py lines 144-145 passing `video_title.replace(' ', '-')` of the batch
item into `GenerationWorker`, and worker.py line 337 creating the directory
named by it). -/
def generation_output_dir (itemTitle : List Char) : List Char :=
  replaceSpaceDash itemTitle

/-! ## Lemmas about `str.split()` and `" ".join` -/

/-- Every word produced by `splitWordsAux` from a whitespace-free accumulator is
nonempty and free of whitespace. -/
theorem splitWordsAux_good (l : List Char) :
    ∀ acc : List Char, (∀ c ∈ acc, isSpaceChar c = false) →
      ∀ w ∈ splitWordsAux acc l, goodWord w := by
  induction l with
  | nil =>
    intro acc hacc w hw
    simp only [splitWordsAux] at hw
    split at hw
    · simp at hw
    · next h =>
      simp only [List.mem_singleton] at hw
      subst hw
      refine ⟨?_, fun c hc => hacc c (List.mem_reverse.mp hc)⟩
      simp only [ne_eq, List.reverse_eq_nil_iff]
      intro hnil
      rw [hnil] at h
      simp at h
  | cons c rest ih =>
    intro acc hacc w hw
    simp only [splitWordsAux] at hw
    by_cases hsp : isSpaceChar c = true
    · rw [if_pos hsp] at hw
      split at hw
      · exact ih [] (by simp) w hw
      · next h =>
        rcases List.mem_cons.mp hw with hw | hw
        · subst hw
          refine ⟨?_, fun d hd => hacc d (List.mem_reverse.mp hd)⟩
          simp only [ne_eq, List.reverse_eq_nil_iff]
          intro hnil
          rw [hnil] at h
          simp at h
        · exact ih [] (by simp) w hw
    · rw [if_neg hsp] at hw
      refine ih (c :: acc) ?_ w hw
      intro d hd
      rcases List.mem_cons.mp hd with h1 | h1
      · subst h1; simpa using hsp
      · exact hacc d h1

/-- Consuming a whitespace-free block just extends the accumulator. -/
theorem splitWordsAux_nospace_append (w : List Char)
    (hw : ∀ c ∈ w, isSpaceChar c = false) :
    ∀ acc rest, splitWordsAux acc (w ++ rest) = splitWordsAux (w.reverse ++ acc) rest := by
  induction w with
  | nil => intro acc rest; simp
  | cons c w' ih =>
    intro acc rest
    have hc : isSpaceChar c = false := hw c (List.mem_cons_self c w')
    simp only [List.cons_append, splitWordsAux, hc, Bool.false_eq_true, if_false,
      List.append_eq]
    rw [ih (fun d hd => hw d (List.mem_cons_of_mem c hd)) (c :: acc) rest]
    simp [List.append_assoc]

/-- A single good word splits to itself. -/
theorem splitWords_single (w : List Char) (h : goodWord w) : splitWords w = [w] := by
  obtain ⟨hne, hns⟩ := h
  have h1 : splitWords w = splitWordsAux (w.reverse ++ []) [] := by
    have := splitWordsAux_nospace_append w hns [] []
    rw [List.append_nil] at this
    exact this
  rw [h1, List.append_nil]
  simp [splitWordsAux, List.isEmpty_iff, hne]

/-- Splitting distributes over a single separating space. -/
theorem splitWordsAux_space_append (a : List Char) :
    ∀ (acc b : List Char),
      splitWordsAux acc (a ++ ' ' :: b) = splitWordsAux acc a ++ splitWordsAux [] b := by
  have hsp : isSpaceChar ' ' = true := rfl
  induction a with
  | nil =>
    intro acc b
    by_cases h : acc.isEmpty <;> simp [splitWordsAux, hsp, h]
  | cons c a' ih =>
    intro acc b
    by_cases hc : isSpaceChar c = true
    · simp only [List.cons_append, splitWordsAux, hc, if_true]
      by_cases h : acc.isEmpty <;> simp [h, ih]
    · have hc' : isSpaceChar c = false := by simpa using hc
      simp only [List.cons_append, splitWordsAux, hc', Bool.false_eq_true, if_false]
      exact ih (c :: acc) b

/-- Splitting a space-join yields the concatenation of the splits. -/
theorem splitWords_joinSp (segs : List (List Char)) :
    splitWords (joinSp segs) = segs.flatMap splitWords := by
  induction segs with
  | nil => rfl
  | cons s rest ih =>
    cases rest with
    | nil => simp [joinSp]
    | cons t rest' =>
      have h1 : joinSp (s :: t :: rest') = s ++ ' ' :: joinSp (t :: rest') := rfl
      show splitWordsAux [] (joinSp (s :: t :: rest')) = _
      rw [h1, splitWordsAux_space_append]
      have h2 : splitWordsAux [] (joinSp (t :: rest')) = (t :: rest').flatMap splitWords := ih
      rw [h2]
      simp [splitWords]

/-- Joining good words with single spaces and re-splitting recovers the words. -/
theorem splitWords_joinSp_good (ws : List (List Char)) :
    (∀ w ∈ ws, goodWord w) → splitWords (joinSp ws) = ws := by
  rw [splitWords_joinSp]
  induction ws with
  | nil => intro _; rfl
  | cons w rest ih =>
    intro h
    rw [List.flatMap_cons, splitWords_single w (h w (List.mem_cons_self w rest)),
      ih (fun v hv => h v (List.mem_cons_of_mem w hv))]
    rfl

/-! ## Lemmas about the chunking fold -/

/-- The chunking fold preserves the word sequence: the words of the sealed
chunks followed by the pending words equal the incoming words followed by the
words of every processed sentence, and the pending words stay good. -/
theorem chunkFold_words (wl : Nat) (sents : List (List Char)) :
    ∀ (chunks cur : List (List Char)), (∀ w ∈ cur, goodWord w) →
      ((sents.foldl (chunkStep wl) (chunks, cur)).1.flatMap splitWords ++
          (sents.foldl (chunkStep wl) (chunks, cur)).2 =
        chunks.flatMap splitWords ++ cur ++
          sents.flatMap (fun s => splitWords (stripWS s))) ∧
      ∀ w ∈ (sents.foldl (chunkStep wl) (chunks, cur)).2, goodWord w := by
  induction sents with
  | nil =>
    intro chunks cur hcur
    exact ⟨by simp, by simpa using hcur⟩
  | cons s rest ih =>
    intro chunks cur hcur
    rw [List.foldl_cons]
    have hgood_sw : ∀ w ∈ splitWords (stripWS s), goodWord w :=
      splitWordsAux_good (stripWS s) [] (by simp)
    by_cases hle : cur.length + (splitWords (stripWS s)).length ≤ wl
    · have hstep : chunkStep wl (chunks, cur) s = (chunks, cur ++ splitWords (stripWS s)) := by
        simp [chunkStep, hle]
      rw [hstep]
      have hgood' : ∀ w ∈ cur ++ splitWords (stripWS s), goodWord w := by
        intro w hw
        rcases List.mem_append.mp hw with h1 | h1
        · exact hcur w h1
        · exact hgood_sw w h1
      obtain ⟨heq, hg⟩ := ih chunks (cur ++ splitWords (stripWS s)) hgood'
      refine ⟨?_, hg⟩
      rw [heq]
      simp [List.append_assoc]
    · have hstep : chunkStep wl (chunks, cur) s =
          (chunks ++ [joinSp cur], splitWords (stripWS s)) := by
        simp [chunkStep, hle]
      rw [hstep]
      obtain ⟨heq, hg⟩ := ih (chunks ++ [joinSp cur]) (splitWords (stripWS s)) hgood_sw
      refine ⟨?_, hg⟩
      rw [heq, List.flatMap_append]
      simp [splitWords_joinSp_good cur hcur, List.append_assoc]

/-- The chunking fold preserves the word-limit property: every sealed chunk has
at most `wl` words or is exactly one oversized sentence, the pending words stay
good, and the pending words themselves satisfy the same bound. -/
theorem chunkFold_limit (wl : Nat) (S : List (List Char)) :
    ∀ (sents : List (List Char)), (∀ s ∈ sents, s ∈ S) →
    ∀ (chunks cur : List (List Char)),
      (∀ ch ∈ chunks, chunkWithinLimit wl S ch) →
      (∀ w ∈ cur, goodWord w) →
      (cur.length ≤ wl ∨ ∃ s ∈ S, cur = splitWords (stripWS s) ∧ wl < cur.length) →
      (∀ ch ∈ (sents.foldl (chunkStep wl) (chunks, cur)).1, chunkWithinLimit wl S ch) ∧
      (∀ w ∈ (sents.foldl (chunkStep wl) (chunks, cur)).2, goodWord w) ∧
      ((sents.foldl (chunkStep wl) (chunks, cur)).2.length ≤ wl ∨
        ∃ s ∈ S, (sents.foldl (chunkStep wl) (chunks, cur)).2 = splitWords (stripWS s) ∧
          wl < (sents.foldl (chunkStep wl) (chunks, cur)).2.length) := by
  intro sents
  induction sents with
  | nil =>
    intro _ chunks cur h1 h2 h3
    exact ⟨by simpa using h1, by simpa using h2, by simpa using h3⟩
  | cons s rest ih =>
    intro hsub chunks cur h1 h2 h3
    rw [List.foldl_cons]
    have hsub' : ∀ t ∈ rest, t ∈ S := fun t ht => hsub t (List.mem_cons_of_mem s ht)
    have hgood_sw : ∀ w ∈ splitWords (stripWS s), goodWord w :=
      splitWordsAux_good (stripWS s) [] (by simp)
    by_cases hle : cur.length + (splitWords (stripWS s)).length ≤ wl
    · have hstep : chunkStep wl (chunks, cur) s = (chunks, cur ++ splitWords (stripWS s)) := by
        simp [chunkStep, hle]
      rw [hstep]
      refine ih hsub' chunks (cur ++ splitWords (stripWS s)) h1 ?_ ?_
      · intro w hw
        rcases List.mem_append.mp hw with hw | hw
        · exact h2 w hw
        · exact hgood_sw w hw
      · left
        rw [List.length_append]
        exact hle
    · have hstep : chunkStep wl (chunks, cur) s =
          (chunks ++ [joinSp cur], splitWords (stripWS s)) := by
        simp [chunkStep, hle]
      rw [hstep]
      refine ih hsub' (chunks ++ [joinSp cur]) (splitWords (stripWS s)) ?_ hgood_sw ?_
      · intro ch hch
        rcases List.mem_append.mp hch with hch | hch
        · exact h1 ch hch
        · rw [List.mem_singleton] at hch
          subst hch
          have hjoin : splitWords (joinSp cur) = cur := splitWords_joinSp_good cur h2
          rcases h3 with h3 | ⟨s₀, hs₀, hcur, hlen⟩
          · left
            rw [hjoin]
            exact h3
          · right
            exact ⟨s₀, hs₀, by rw [hjoin, hcur], hcur ▸ hlen⟩
      · by_cases hsw : (splitWords (stripWS s)).length ≤ wl
        · left; exact hsw
        · right
          exact ⟨s, hsub s (List.mem_cons_self s rest), rfl, by omega⟩

/-- The chunking fold only ever appends to the sealed-chunk list. -/
theorem chunkFold_chunks_grow (wl : Nat) (sents : List (List Char)) :
    ∀ chunks cur, ∃ t, (sents.foldl (chunkStep wl) (chunks, cur)).1 = chunks ++ t := by
  induction sents with
  | nil => intro chunks cur; exact ⟨[], by simp⟩
  | cons s rest ih =>
    intro chunks cur
    rw [List.foldl_cons]
    by_cases hle : cur.length + (splitWords (stripWS s)).length ≤ wl
    · rw [show chunkStep wl (chunks, cur) s = (chunks, cur ++ splitWords (stripWS s)) from
        by simp [chunkStep, hle]]
      exact ih chunks _
    · rw [show chunkStep wl (chunks, cur) s =
          (chunks ++ [joinSp cur], splitWords (stripWS s)) from by simp [chunkStep, hle]]
      obtain ⟨t, ht⟩ := ih (chunks ++ [joinSp cur]) (splitWords (stripWS s))
      exact ⟨[joinSp cur] ++ t, by rw [ht]; simp⟩

/-! ## Lemmas about the retry loops -/

/-- Trace and outcome of a retry loop whose wrapped callable fails with a
retryable error on every attempt: the remaining attempts all run, with a
backoff sleep after each failed attempt except the last, and the loop raises
the error observed on the final attempt. -/
theorem retryLoop_always_fail {α : Type} (retryable : PyErr → Bool) (e : Nat → PyErr)
    (he : ∀ k, retryable (e k) = true) (mr : Nat) :
    ∀ (fuel attempt : Nat), 1 ≤ fuel → attempt + fuel = mr →
      retryLoop retryable false (fun k => (Except.error (e k) : Except PyErr α)) mr fuel attempt =
        (expectedTrace attempt fuel, Except.error (e (mr - 1))) := by
  intro fuel
  induction fuel with
  | zero => intro attempt h1 _; omega
  | succ f ih =>
    intro attempt _ hsum
    simp only [retryLoop, Bool.false_eq_true, if_false, he attempt, if_true]
    cases f with
    | zero =>
      have ha : attempt = mr - 1 := by omega
      rw [if_pos ha, ha]
      rfl
    | succ f' =>
      have hne : ¬attempt = mr - 1 := by omega
      rw [if_neg hne, ih (attempt + 1) (by omega) (by omega)]
      rfl

/-- A call event adds one to the call count. -/
theorem callCount_cons_call (a : Nat) (tr : List TraceEv) :
    callCount (TraceEv.call a :: tr) = callCount tr + 1 := by
  simp [callCount, List.filter_cons]

/-- A sleep event does not change the call count. -/
theorem callCount_cons_sleep (d : Nat) (tr : List TraceEv) :
    callCount (TraceEv.sleep d :: tr) = callCount tr := by
  simp [callCount, List.filter_cons]

/-- The all-failures trace for `fuel` remaining attempts contains exactly
`fuel` invocations. -/
theorem callCount_expectedTrace : ∀ (fuel a : Nat), callCount (expectedTrace a fuel) = fuel := by
  intro fuel
  induction fuel using Nat.strong_induction_on with
  | _ fuel ih =>
    intro a
    match fuel with
    | 0 => rfl
    | 1 => rfl
    | f + 2 =>
      rw [show expectedTrace a (f + 2) =
          TraceEv.call a :: TraceEv.sleep (2 ^ a) :: expectedTrace (a + 1) (f + 1) from rfl,
        callCount_cons_call, callCount_cons_sleep, ih (f + 1) (by omega)]

/-- Scanning past a call event. -/
theorem delayBefore_cons_call (j : Nat) (rest : List TraceEv) (k : Nat) :
    delayBefore (TraceEv.call j :: rest) k = delayBefore rest k := rfl

/-- Scanning a sleep event directly followed by a call event. -/
theorem delayBefore_cons_sleep_call (d j : Nat) (rest : List TraceEv) (k : Nat) :
    delayBefore (TraceEv.sleep d :: TraceEv.call j :: rest) k =
      if j = k then d else delayBefore (TraceEv.call j :: rest) k := rfl

/-- The all-failures trace starting at attempt `a` mentions no attempt below
`a`, so the scanned delay for such an attempt is zero. -/
theorem delayBefore_expectedTrace_low :
    ∀ (fuel a k : Nat), k < a → delayBefore (expectedTrace a fuel) k = 0 := by
  intro fuel
  induction fuel using Nat.strong_induction_on with
  | _ fuel ih =>
    intro a k hk
    match fuel with
    | 0 => rfl
    | 1 =>
      rw [show expectedTrace a 1 = [TraceEv.call a] from rfl, delayBefore_cons_call]
      rfl
    | f + 2 =>
      rw [show expectedTrace a (f + 2) =
          TraceEv.call a :: TraceEv.sleep (2 ^ a) :: expectedTrace (a + 1) (f + 1) from rfl,
        delayBefore_cons_call]
      have hexp : expectedTrace (a + 1) (f + 1) =
          TraceEv.call (a + 1) :: (expectedTrace (a + 1) (f + 1)).tail := by
        cases f with
        | zero => rfl
        | succ f' => rfl
      rw [hexp, delayBefore_cons_sleep_call, if_neg (by omega), ← hexp]
      exact ih (f + 1) (by omega) (a + 1) k (by omega)

/-- Backoff delays in the all-failures trace: none before the first attempt of
the window, `2 ^ (k - 1)` before each later attempt `k` in the window. -/
theorem delayBefore_expectedTrace :
    ∀ (fuel a k : Nat), a ≤ k → k < a + fuel →
      delayBefore (expectedTrace a fuel) k = if k = a then 0 else 2 ^ (k - 1) := by
  intro fuel
  induction fuel using Nat.strong_induction_on with
  | _ fuel ih =>
    intro a k hak hk
    match fuel with
    | 0 => omega
    | 1 =>
      have hka : k = a := by omega
      rw [if_pos hka, hka]
      rw [show expectedTrace a 1 = [TraceEv.call a] from rfl, delayBefore_cons_call]
      rfl
    | f + 2 =>
      rw [show expectedTrace a (f + 2) =
          TraceEv.call a :: TraceEv.sleep (2 ^ a) :: expectedTrace (a + 1) (f + 1) from rfl,
        delayBefore_cons_call]
      have hexp : expectedTrace (a + 1) (f + 1) =
          TraceEv.call (a + 1) :: (expectedTrace (a + 1) (f + 1)).tail := by
        cases f with
        | zero => rfl
        | succ f' => rfl
      rw [hexp, delayBefore_cons_sleep_call]
      by_cases hk1 : a + 1 = k
      · rw [if_pos hk1, if_neg (by omega)]
        have : k - 1 = a := by omega
        rw [this]
      · rw [if_neg hk1, ← hexp]
        by_cases hka : k = a
        · rw [if_pos hka, hka]
          exact delayBefore_expectedTrace_low (f + 1) (a + 1) a (by omega)
        · rw [if_neg hka]
          have h2 := ih (f + 1) (by omega) (a + 1) k (by omega) (by omega)
          rw [if_neg (by omega)] at h2
          exact h2

/-! ## Lemmas about the progress sequence -/

/-- Appending two non-decreasing lists separated by a pivot value is
non-decreasing. -/
theorem pairwise_le_append_pivot {l₁ l₂ : List Nat} (m : Nat)
    (h₁ : List.Pairwise (· ≤ ·) l₁) (h₂ : List.Pairwise (· ≤ ·) l₂)
    (hb₁ : ∀ a ∈ l₁, a ≤ m) (hb₂ : ∀ b ∈ l₂, m ≤ b) :
    List.Pairwise (· ≤ ·) (l₁ ++ l₂) :=
  List.pairwise_append.mpr ⟨h₁, h₂, fun a ha b hb => Nat.le_trans (hb₁ a ha) (hb₂ b hb)⟩

/-- A stage segment is non-decreasing. -/
theorem stageSeg_pairwise (base span n : Nat) :
    List.Pairwise (· ≤ ·) (stageSeg base span n) := by
  unfold stageSeg
  rw [List.pairwise_map]
  refine List.Pairwise.imp ?_ (List.pairwise_lt_range n)
  intro i j hij
  exact Nat.add_le_add_left (Nat.div_le_div_right (Nat.mul_le_mul (Nat.le_refl span) (by omega))) base

/-- Every value of a stage segment is at least the base. -/
theorem stageSeg_lb {base span n x : Nat} (hx : x ∈ stageSeg base span n) : base ≤ x := by
  unfold stageSeg at hx
  rw [List.mem_map] at hx
  obtain ⟨i, _, rfl⟩ := hx
  exact Nat.le_add_right base _

/-- Every value of a stage segment is at most `base + span`. -/
theorem stageSeg_ub {base span n x : Nat} (hx : x ∈ stageSeg base span n) : x ≤ base + span := by
  unfold stageSeg at hx
  rw [List.mem_map] at hx
  obtain ⟨i, hi, rfl⟩ := hx
  rw [List.mem_range] at hi
  have h1 : span * (i + 1) ≤ span * n := Nat.mul_le_mul (Nat.le_refl span) (by omega)
  have h2 : span * (i + 1) / n ≤ span * n / n := Nat.div_le_div_right h1
  have h3 : span * n / n ≤ span := by
    cases n with
    | zero => omega
    | succ m =>
      rw [Nat.mul_div_cancel]
      omega
  omega

/-! ## Lemmas for the finished event and the upload paths -/

/-- The modelled `get_first_paragraph` returns exactly the text before the
first blank line when the first paragraph contains no newline. -/
theorem get_first_paragraph_before_blank (p rest : List Char) (hp : '\n' ∉ p) :
    get_first_paragraph (p ++ '\n' :: '\n' :: rest) = p := by
  induction p with
  | nil => simp [get_first_paragraph]
  | cons c p' ih =>
    have hc : ¬c = '\n' := by
      intro h
      apply hp
      rw [h]
      exact List.mem_cons_self _ _
    have hp' : '\n' ∉ p' := fun h => hp (List.mem_cons_of_mem c h)
    simp only [List.cons_append, get_first_paragraph, List.append_eq]
    rw [if_neg (fun h => hc h.1), ih hp']

/-- Replacing spaces with dashes changes any string that contains a space. -/
theorem replaceSpaceDash_ne {l : List Char} (h : ' ' ∈ l) : replaceSpaceDash l ≠ l := by
  induction l with
  | nil => simp at h
  | cons c rest ih =>
    intro heq
    simp only [replaceSpaceDash, List.map_cons] at heq
    by_cases hc : c = ' '
    · rw [if_pos hc] at heq
      injection heq with h1 _
      rw [hc] at h1
      exact absurd h1 (by decide)
    · rw [if_neg hc] at heq
      injection heq with _ h2
      have hmem : ' ' ∈ rest := by
        rcases List.mem_cons.mp h with h1 | h1
        · exact absurd h1.symm hc
        · exact h1
      exact ih hmem h2

/-- Membership in a Python slice `l[:n]` implies membership in `l`. -/
theorem pySlice_subset {α : Type} {l : List α} {n : Int} {a : α} (h : a ∈ pySlice l n) :
    a ∈ l := by
  unfold pySlice at h
  split at h <;> exact List.mem_of_mem_take h

/-- The head of `take n (a :: l)` is `a` whenever `n ≥ 1`. -/
theorem head?_take_cons {α : Type} {n : Nat} (hn : 1 ≤ n) (a : α) (l : List α) :
    ((a :: l).take n).head? = some a := by
  cases n with
  | zero => omega
  | succ m => rfl

/-- Every chunk returned by `split_text_into_chunks` belongs to the fold's
sealed chunks, possibly followed by the joined trailing chunk. -/
theorem split_text_into_chunks_mem {text : List Char} {cc : Int} {wl : Nat}
    {chunk : List Char} (h : chunk ∈ split_text_into_chunks text cc wl) :
    chunk ∈ (if ((findSentences (cleanText text)).foldl (chunkStep wl) ([], [])).2.isEmpty
      then ((findSentences (cleanText text)).foldl (chunkStep wl) ([], [])).1
      else ((findSentences (cleanText text)).foldl (chunkStep wl) ([], [])).1 ++
        [joinSp ((findSentences (cleanText text)).foldl (chunkStep wl) ([], [])).2]) := by
  simp only [split_text_into_chunks] at h
  split at h
  · exact h
  · exact pySlice_subset h

/-! ## Claim theorems -/

/-- C1: for every list of K audio chunks, if at least one of the K parallel
audio tasks fails then `_generate_audio_parallel` raises an aggregate error
whose reported failed-index list contains exactly the 1-based indices of the
failing tasks (as a set, independently of the workers' completion order), and
every task — failing or not — still ran to completion before the stage
failed. -/
theorem audio_stage_atomicity (n : Nat) (ok : Nat → Bool) (order : List Nat)
    (hperm : order.Perm (List.range n)) (hfail : ∃ i, i < n ∧ ok i = false) :
    (∃ l, (generate_audio_parallel n ok order).2 = Except.error l ∧
      ∀ j, j ∈ l ↔ ∃ i, i < n ∧ ok i = false ∧ j = i + 1) ∧
    ∀ i, i < n → i ∈ (generate_audio_parallel n ok order).1 := by
  obtain ⟨i₀, hi₀, hok₀⟩ := hfail
  have hmem : ∀ i : Nat, i ∈ order ↔ i < n := by
    intro i
    rw [hperm.mem_iff, List.mem_range]
  have hmem' : i₀ + 1 ∈ (order.filter (fun i => !ok i)).map (fun i => i + 1) :=
    List.mem_map.mpr ⟨i₀, List.mem_filter.mpr ⟨(hmem i₀).mpr hi₀, by simp [hok₀]⟩, rfl⟩
  constructor
  · refine ⟨(order.filter (fun i => !ok i)).map (fun i => i + 1), ?_, ?_⟩
    · have hne : ((order.filter (fun i => !ok i)).map (fun i => i + 1)).isEmpty = false := by
        cases hL : (order.filter (fun i => !ok i)).map (fun i => i + 1) with
        | nil => rw [hL] at hmem'; simp at hmem'
        | cons x xs => rfl
      simp [generate_audio_parallel, hne]
    · intro j
      simp only [List.mem_map, List.mem_filter]
      constructor
      · rintro ⟨i, ⟨hiord, hif⟩, rfl⟩
        exact ⟨i, (hmem i).mp hiord, by simpa using hif, rfl⟩
      · rintro ⟨i, hin, hif, rfl⟩
        exact ⟨i, ⟨(hmem i).mpr hin, by simp [hif]⟩, rfl⟩
  · intro i hi
    have h1 : (generate_audio_parallel n ok order).1 = order := rfl
    rw [h1]
    exact (hmem i).mpr hi

/-- Witness for C1. -/
theorem audio_stage_atomicity_witness :
    (∃ l, (generate_audio_parallel 3 (fun i => decide (i = 0)) [2, 0, 1]).2 = Except.error l ∧
      ∀ j, j ∈ l ↔ ∃ i, i < 3 ∧ decide (i = 0) = false ∧ j = i + 1) ∧
    ∀ i, i < 3 → i ∈ (generate_audio_parallel 3 (fun i => decide (i = 0)) [2, 0, 1]).1 :=
  audio_stage_atomicity 3 (fun i => decide (i = 0)) [2, 0, 1] (by decide)
    ⟨1, by decide, by decide⟩

/-- C2: within a single pipeline run, the sequence of values emitted on
`progress_update` is non-decreasing and every emitted value lies in `[0, 100]`
(values are naturals, so non-negative), for every `loop_length ≥ 1`, image
chunk count ≥ 1 and audio chunk count ≥ 1, including the interleaved emissions
of the parallel audio workers (whose values are produced in counter order under
the progress lock). -/
theorem progress_monotone_bounded (L nI nA : Nat) (hL : 1 ≤ L) (hI : 1 ≤ nI) (hA : 1 ≤ nA) :
    List.Pairwise (· ≤ ·) (runProgressSeq L nI nA) ∧
      ∀ p ∈ runProgressSeq L nI nA, p ≤ 100 := by
  constructor
  · have p7 : List.Pairwise (· ≤ ·) (stageSeg 65 25 nI ++ [100]) := by
      refine pairwise_le_append_pivot 100 (stageSeg_pairwise 65 25 nI) ?_ ?_ ?_
      · exact List.pairwise_singleton _ _
      · intro a ha; have := stageSeg_ub ha; omega
      · intro b hb; simp only [List.mem_singleton] at hb; omega
    have lb7 : ∀ b ∈ stageSeg 65 25 nI ++ [100], 65 ≤ b := by
      intro b hb
      rcases List.mem_append.mp hb with h | h
      · exact stageSeg_lb h
      · simp only [List.mem_singleton] at h; omega
    have p6 : List.Pairwise (· ≤ ·) ([65] ++ (stageSeg 65 25 nI ++ [100])) := by
      refine pairwise_le_append_pivot 65 (List.pairwise_singleton _ _) p7 ?_ lb7
      intro a ha; simp only [List.mem_singleton] at ha; omega
    have lb6 : ∀ b ∈ [65] ++ (stageSeg 65 25 nI ++ [100]), 65 ≤ b := by
      intro b hb
      rcases List.mem_append.mp hb with h | h
      · simp only [List.mem_singleton] at h; omega
      · exact lb7 b h
    have p5 : List.Pairwise (· ≤ ·)
        (stageSeg 45 20 nA ++ ([65] ++ (stageSeg 65 25 nI ++ [100]))) := by
      refine pairwise_le_append_pivot 65 (stageSeg_pairwise 45 20 nA) p6 ?_ lb6
      intro a ha; have := stageSeg_ub ha; omega
    have lb5 : ∀ b ∈ stageSeg 45 20 nA ++ ([65] ++ (stageSeg 65 25 nI ++ [100])), 45 ≤ b := by
      intro b hb
      rcases List.mem_append.mp hb with h | h
      · exact stageSeg_lb h
      · have := lb6 b h; omega
    have p4 : List.Pairwise (· ≤ ·)
        (stageSeg 25 20 nI ++ (stageSeg 45 20 nA ++ ([65] ++ (stageSeg 65 25 nI ++ [100])))) := by
      refine pairwise_le_append_pivot 45 (stageSeg_pairwise 25 20 nI) p5 ?_ lb5
      intro a ha; have := stageSeg_ub ha; omega
    have lb4 : ∀ b ∈ stageSeg 25 20 nI ++ (stageSeg 45 20 nA ++
        ([65] ++ (stageSeg 65 25 nI ++ [100]))), 25 ≤ b := by
      intro b hb
      rcases List.mem_append.mp hb with h | h
      · exact stageSeg_lb h
      · have := lb5 b h; omega
    have p3 : List.Pairwise (· ≤ ·) ([10, 25] ++ (stageSeg 25 20 nI ++
        (stageSeg 45 20 nA ++ ([65] ++ (stageSeg 65 25 nI ++ [100]))))) := by
      refine pairwise_le_append_pivot 25 (by decide) p4 ?_ lb4
      intro a ha
      rcases List.mem_cons.mp ha with rfl | ha
      · omega
      · simp only [List.mem_singleton] at ha; omega
    have lb3 : ∀ b ∈ [10, 25] ++ (stageSeg 25 20 nI ++
        (stageSeg 45 20 nA ++ ([65] ++ (stageSeg 65 25 nI ++ [100])))), 10 ≤ b := by
      intro b hb
      rcases List.mem_append.mp hb with h | h
      · rcases List.mem_cons.mp h with rfl | h
        · omega
        · simp only [List.mem_singleton] at h; omega
      · have := lb4 b h; omega
    have p2 : List.Pairwise (· ≤ ·) (stageSeg 6 3 L ++ ([10, 25] ++ (stageSeg 25 20 nI ++
        (stageSeg 45 20 nA ++ ([65] ++ (stageSeg 65 25 nI ++ [100])))))) := by
      refine pairwise_le_append_pivot 10 (stageSeg_pairwise 6 3 L) p3 ?_ lb3
      intro a ha; have := stageSeg_ub ha; omega
    have lb2 : ∀ b ∈ stageSeg 6 3 L ++ ([10, 25] ++ (stageSeg 25 20 nI ++
        (stageSeg 45 20 nA ++ ([65] ++ (stageSeg 65 25 nI ++ [100]))))), 6 ≤ b := by
      intro b hb
      rcases List.mem_append.mp hb with h | h
      · exact stageSeg_lb h
      · have := lb3 b h; omega
    have p1 : List.Pairwise (· ≤ ·) ([5, 6] ++ (stageSeg 6 3 L ++ ([10, 25] ++
        (stageSeg 25 20 nI ++ (stageSeg 45 20 nA ++
          ([65] ++ (stageSeg 65 25 nI ++ [100]))))))) := by
      refine pairwise_le_append_pivot 6 (by decide) p2 ?_ lb2
      intro a ha
      rcases List.mem_cons.mp ha with rfl | ha
      · omega
      · simp only [List.mem_singleton] at ha; omega
    exact p1
  · intro p hp
    have hdef : runProgressSeq L nI nA = [5, 6] ++ (stageSeg 6 3 L ++ ([10, 25] ++
        (stageSeg 25 20 nI ++ (stageSeg 45 20 nA ++
          ([65] ++ (stageSeg 65 25 nI ++ [100])))))) := rfl
    rw [hdef] at hp
    rcases List.mem_append.mp hp with h | hp
    · rcases List.mem_cons.mp h with rfl | h
      · omega
      · simp only [List.mem_singleton] at h; omega
    rcases List.mem_append.mp hp with h | hp
    · have := stageSeg_ub h; omega
    rcases List.mem_append.mp hp with h | hp
    · rcases List.mem_cons.mp h with rfl | h
      · omega
      · simp only [List.mem_singleton] at h; omega
    rcases List.mem_append.mp hp with h | hp
    · have := stageSeg_ub h; omega
    rcases List.mem_append.mp hp with h | hp
    · have := stageSeg_ub h; omega
    rcases List.mem_append.mp hp with h | hp
    · simp only [List.mem_singleton] at h; omega
    rcases List.mem_append.mp hp with h | hp
    · have := stageSeg_ub h; omega
    · simp only [List.mem_singleton] at hp; omega

/-- Witness for C2. -/
theorem progress_monotone_bounded_witness :
    List.Pairwise (· ≤ ·) (runProgressSeq 2 3 4) ∧ ∀ p ∈ runProgressSeq 2 3 4, p ≤ 100 :=
  progress_monotone_bounded 2 3 4 (by decide) (by decide) (by decide)

/-- C3 counterexample: for the input `"hello"` (no sentence-ending
punctuation) and `chunks_count = -1`, the chunker returns no chunks at all, so
joining the chunks with spaces does not reproduce the word `hello` of the
normalized input — the claim as stated is false. -/
theorem chunk_coverage_counterexample :
    splitWords (joinSp (split_text_into_chunks ("hello".data) (-1) 10)) ≠
      splitWords (cleanText ("hello".data)) := by
  decide

/-- C3 amended: with `chunks_count = -1`, joining all returned chunks with
single spaces reproduces, in original order, exactly the words of the
sentences recognized by the sentence segmentation of the normalized input;
words outside any matched sentence (for example trailing text without
sentence-ending punctuation) are dropped. -/
theorem chunk_coverage_amended (text : List Char) (word_limit : Nat) :
    splitWords (joinSp (split_text_into_chunks text (-1) word_limit)) =
      (findSentences (cleanText text)).flatMap (fun s => splitWords (stripWS s)) := by
  obtain ⟨heq, hgood⟩ :=
    chunkFold_words word_limit (findSentences (cleanText text)) [] [] (by simp)
  have key : ((findSentences (cleanText text)).foldl (chunkStep word_limit) ([], [])).1.flatMap
        splitWords ++ ((findSentences (cleanText text)).foldl (chunkStep word_limit) ([], [])).2 =
      (findSentences (cleanText text)).flatMap (fun s => splitWords (stripWS s)) := by
    simpa using heq
  rw [splitWords_joinSp]
  have hdef : split_text_into_chunks text (-1) word_limit =
      (if ((findSentences (cleanText text)).foldl (chunkStep word_limit) ([], [])).2.isEmpty
        then ((findSentences (cleanText text)).foldl (chunkStep word_limit) ([], [])).1
        else ((findSentences (cleanText text)).foldl (chunkStep word_limit) ([], [])).1 ++
          [joinSp ((findSentences (cleanText text)).foldl
            (chunkStep word_limit) ([], [])).2]) := rfl
  rw [hdef]
  set st := (findSentences (cleanText text)).foldl (chunkStep word_limit) ([], []) with hst
  by_cases h2 : st.2.isEmpty = true
  · rw [if_pos h2]
    have h2' : st.2 = [] := by
      cases hs : st.2 with
      | nil => rfl
      | cons a l => rw [hs] at h2; simp at h2
    rw [← key, h2', List.append_nil]
  · rw [if_neg h2, List.flatMap_append, ← key]
    simp [splitWords_joinSp_good st.2 hgood]

/-- C4: for every input text, `chunks_count` and `word_limit > 0`, every chunk
returned by `split_text_into_chunks` has at most `word_limit` words, except a
chunk whose words are exactly those of a single sentence whose own word count
exceeds `word_limit` (such an oversized sentence is never further split). -/
theorem chunk_word_limit (text : List Char) (chunks_count : Int) (word_limit : Nat)
    (hwl : 0 < word_limit) :
    ∀ chunk ∈ split_text_into_chunks text chunks_count word_limit,
      (splitWords chunk).length ≤ word_limit ∨
      ∃ s ∈ findSentences (cleanText text),
        splitWords chunk = splitWords (stripWS s) ∧
          word_limit < (splitWords (stripWS s)).length := by
  obtain ⟨hchunks, hgood, hcur⟩ :=
    chunkFold_limit word_limit (findSentences (cleanText text)) (findSentences (cleanText text))
      (fun s hs => hs) [] [] (by simp) (by simp) (Or.inl (by simp))
  intro chunk hch
  have hch' := split_text_into_chunks_mem hch
  split at hch'
  · exact hchunks chunk hch'
  · rcases List.mem_append.mp hch' with h1 | h1
    · exact hchunks chunk h1
    · rw [List.mem_singleton] at h1
      subst h1
      have hjoin : splitWords
          (joinSp ((findSentences (cleanText text)).foldl
            (chunkStep word_limit) ([], [])).2) =
          ((findSentences (cleanText text)).foldl (chunkStep word_limit) ([], [])).2 :=
        splitWords_joinSp_good _ hgood
      rcases hcur with hlen | ⟨s₀, hs₀, hcureq, hlen⟩
      · exact Or.inl (by rw [hjoin]; exact hlen)
      · exact Or.inr ⟨s₀, hs₀, by rw [hjoin, hcureq], hcureq ▸ hlen⟩

/-- Witness for C4. -/
theorem chunk_word_limit_witness :
    0 < 3 ∧ ∀ chunk ∈ split_text_into_chunks ("a b. c d e.".data) (-1) 3,
      (splitWords chunk).length ≤ 3 ∨
      ∃ s ∈ findSentences (cleanText ("a b. c d e.".data)),
        splitWords chunk = splitWords (stripWS s) ∧ 3 < (splitWords (stripWS s)).length :=
  ⟨by decide, chunk_word_limit ("a b. c d e.".data) (-1) 3 (by decide)⟩

/-- C5: for a batch of 5 items where exactly item 3 fails validation and the
other 4 succeed end-to-end (generation and upload), all 5 items reach a
terminal state in order, item 3's status is `Error (Validation)` and no
`GenerationWorker` is constructed for it, and the final summary reports
`successful = 4` and `failed = 1` out of 5. -/
theorem batch_partial_failure (u₁ u₂ u₄ u₅ : List Char) :
    (run_bulk_generation [ItemOutcome.uploadSuccess u₁, ItemOutcome.uploadSuccess u₂,
        ItemOutcome.validationFail, ItemOutcome.uploadSuccess u₄,
        ItemOutcome.uploadSuccess u₅]).statuses =
      ["Completed".data, "Completed".data, "Error (Validation)".data, "Completed".data,
        "Completed".data] ∧
    (run_bulk_generation [ItemOutcome.uploadSuccess u₁, ItemOutcome.uploadSuccess u₂,
        ItemOutcome.validationFail, ItemOutcome.uploadSuccess u₄,
        ItemOutcome.uploadSuccess u₅]).workerCreated = [true, true, false, true, true] ∧
    (run_bulk_generation [ItemOutcome.uploadSuccess u₁, ItemOutcome.uploadSuccess u₂,
        ItemOutcome.validationFail, ItemOutcome.uploadSuccess u₄,
        ItemOutcome.uploadSuccess u₅]).successful = 4 ∧
    (run_bulk_generation [ItemOutcome.uploadSuccess u₁, ItemOutcome.uploadSuccess u₂,
        ItemOutcome.validationFail, ItemOutcome.uploadSuccess u₄,
        ItemOutcome.uploadSuccess u₅]).failed = 1 ∧
    (run_bulk_generation [ItemOutcome.uploadSuccess u₁, ItemOutcome.uploadSuccess u₂,
        ItemOutcome.validationFail, ItemOutcome.uploadSuccess u₄,
        ItemOutcome.uploadSuccess u₅]).total = 5 :=
  ⟨rfl, rfl, rfl, rfl, rfl⟩

/-- C6 counterexample: with retry budget `max_retries = 0` the wrapped
function is never invoked, but `_safe_api_call` does not re-raise any error —
it falls through the loop and returns `None` — so the claim as stated fails at
`max_retries = 0`. -/
theorem retry_budget_counterexample :
    (safe_api_call false 0 (fun _ => (Except.error PyErr.timeout : Except PyErr Unit))) =
      ([], Except.ok none) ∧
    ¬∃ err, (safe_api_call false 0
        (fun _ => (Except.error PyErr.timeout : Except PyErr Unit))).2 = Except.error err := by
  refine ⟨rfl, ?_⟩
  rintro ⟨err, h⟩
  rw [show (safe_api_call false 0 (fun _ => (Except.error PyErr.timeout : Except PyErr Unit))).2 =
      Except.ok none from rfl] at h
  exact Except.noConfusion h

/-- C6 amended: for every `max_retries ≥ 1`, a function whose invocations all
fail with transient (timeout or request/network) errors is invoked exactly
`max_retries` times by `_safe_api_call`, which then re-raises the last
observed error to its caller. -/
theorem retry_budget_amended {α : Type} (maxRetries : Nat) (hmr : 1 ≤ maxRetries)
    (e : Nat → PyErr) (he : ∀ k, apiRetryable (e k) = true) :
    callCount (safe_api_call false maxRetries
        (fun k => (Except.error (e k) : Except PyErr α))).1 = maxRetries ∧
    (safe_api_call false maxRetries (fun k => (Except.error (e k) : Except PyErr α))).2 =
      Except.error (e (maxRetries - 1)) := by
  have h := @retryLoop_always_fail α apiRetryable e he maxRetries maxRetries 0 hmr (by omega)
  unfold safe_api_call
  rw [h]
  exact ⟨callCount_expectedTrace maxRetries 0, rfl⟩

/-- Witness for C6's amended theorem. -/
theorem retry_budget_amended_witness :
    callCount (safe_api_call false 3
        (fun _ => (Except.error PyErr.timeout : Except PyErr Unit))).1 = 3 ∧
    (safe_api_call false 3 (fun _ => (Except.error PyErr.timeout : Except PyErr Unit))).2 =
      Except.error PyErr.timeout :=
  retry_budget_amended 3 (by omega) (fun _ => PyErr.timeout) (fun _ => rfl)

/-- C7 counterexample: in a concrete run of `_safe_api_call` with two
always-failing transient attempts, the delay slept before attempt 0 is 0
seconds, not `2 ^ 0 = 1` — the claim's indexing is off by one. -/
theorem backoff_delay_counterexample :
    delayBefore (safe_api_call false 2
        (fun _ => (Except.error PyErr.timeout : Except PyErr Unit))).1 0 = 0 ∧
    (0 : Nat) ≠ 2 ^ 0 :=
  ⟨rfl, by decide⟩

/-- C7 amended: in both retry wrappers, no backoff delay is slept before
attempt 0, and the delay slept before attempt `k` (0-indexed, `1 ≤ k <
max_retries`) is exactly `2 ^ (k - 1)` seconds — equivalently, `2 ^ j` seconds
are slept after failed attempt `j` when retries remain — with no jitter. -/
theorem backoff_delay_amended (maxRetries : Nat) (hmr : 1 ≤ maxRetries)
    (e₁ e₂ : Nat → PyErr) (he₁ : ∀ k, apiRetryable (e₁ k) = true)
    (he₂ : ∀ k, reqRetryable (e₂ k) = true) :
    (delayBefore (safe_api_call false maxRetries
        (fun k => (Except.error (e₁ k) : Except PyErr Unit))).1 0 = 0 ∧
      ∀ k, 1 ≤ k → k < maxRetries →
        delayBefore (safe_api_call false maxRetries
          (fun j => (Except.error (e₁ j) : Except PyErr Unit))).1 k = 2 ^ (k - 1)) ∧
    (delayBefore (safe_requests_call false maxRetries
        (fun k => (Except.error (e₂ k) : Except PyErr Unit))).1 0 = 0 ∧
      ∀ k, 1 ≤ k → k < maxRetries →
        delayBefore (safe_requests_call false maxRetries
          (fun j => (Except.error (e₂ j) : Except PyErr Unit))).1 k = 2 ^ (k - 1)) := by
  have h₁ := @retryLoop_always_fail Unit apiRetryable e₁ he₁ maxRetries maxRetries 0 hmr
    (by omega)
  have h₂ := @retryLoop_always_fail Unit reqRetryable e₂ he₂ maxRetries maxRetries 0 hmr
    (by omega)
  unfold safe_api_call safe_requests_call
  rw [h₁, h₂]
  have hzero : delayBefore (expectedTrace 0 maxRetries) 0 = 0 := by
    have h := delayBefore_expectedTrace maxRetries 0 0 (by omega) (by omega)
    rwa [if_pos rfl] at h
  have hk : ∀ k, 1 ≤ k → k < maxRetries →
      delayBefore (expectedTrace 0 maxRetries) k = 2 ^ (k - 1) := by
    intro k h1 h2
    have h := delayBefore_expectedTrace maxRetries 0 k (by omega) (by omega)
    rwa [if_neg (by omega)] at h
  exact ⟨⟨hzero, fun k a b => hk k a b⟩, ⟨hzero, fun k a b => hk k a b⟩⟩

/-- Witness for C7's amended theorem. -/
theorem backoff_delay_amended_witness :
    (delayBefore (safe_api_call false 3
        (fun _ => (Except.error PyErr.timeout : Except PyErr Unit))).1 0 = 0 ∧
      ∀ k, 1 ≤ k → k < 3 →
        delayBefore (safe_api_call false 3
          (fun _ => (Except.error PyErr.timeout : Except PyErr Unit))).1 k = 2 ^ (k - 1)) ∧
    (delayBefore (safe_requests_call false 3
        (fun _ => (Except.error PyErr.timeout : Except PyErr Unit))).1 0 = 0 ∧
      ∀ k, 1 ≤ k → k < 3 →
        delayBefore (safe_requests_call false 3
          (fun _ => (Except.error PyErr.timeout : Except PyErr Unit))).1 k = 2 ^ (k - 1)) :=
  backoff_delay_amended 3 (by omega) (fun _ => PyErr.timeout) (fun _ => PyErr.timeout)
    (fun _ => rfl) (fun _ => rfl)

/-- C8: for every run that completes all six stages successfully, the single
terminal `finished` event carries the first paragraph of the generated intro
script (here: the intro script is `p` followed by a blank line and more text,
`p` containing no newline), not a degraded placeholder message.  The helper
`get_first_paragraph` is modelled from the spec, its definition being absent
from the sources. -/
theorem finished_description_first_paragraph (p rest : List Char) (hp : '\n' ∉ p) :
    run_terminal_events (some (p ++ '\n' :: '\n' :: rest)) = [p] := by
  show [get_first_paragraph (p ++ '\n' :: '\n' :: rest)] = [p]
  rw [get_first_paragraph_before_blank p rest hp]

/-- Witness for C8. -/
theorem finished_description_first_paragraph_witness :
    run_terminal_events (some (("Hello world.".data) ++ '\n' :: '\n' :: ("More text.".data))) =
      ["Hello world.".data] :=
  finished_description_first_paragraph ("Hello world.".data) ("More text.".data) (by decide)

/-- C9: whenever the first parsed sentence of the normalized input has more
than `word_limit` words, `split_text_into_chunks` (with any `chunks_count`
permitting at least one chunk) returns the empty string as its first chunk:
the empty current chunk is sealed and appended before the oversized sentence
starts a new chunk. -/
theorem oversized_first_sentence_empty_chunk (text : List Char) (chunks_count : Int)
    (word_limit : Nat) (s₀ : List Char) (srest : List (List Char))
    (hsent : findSentences (cleanText text) = s₀ :: srest)
    (hover : word_limit < (splitWords (stripWS s₀)).length)
    (hcc : chunks_count = -1 ∨ 1 ≤ chunks_count) :
    (split_text_into_chunks text chunks_count word_limit).head? = some [] := by
  have hstep : chunkStep word_limit ([], []) s₀ = ([[]], splitWords (stripWS s₀)) := by
    unfold chunkStep
    rw [if_neg]
    · rfl
    · simp
      omega
  simp only [split_text_into_chunks, hsent, List.foldl_cons, hstep]
  obtain ⟨t, ht⟩ := chunkFold_chunks_grow word_limit srest [[]] (splitWords (stripWS s₀))
  rw [ht]
  rcases hcc with rfl | hge
  · rw [if_pos rfl]
    split
    · rfl
    · rfl
  · rw [if_neg (by omega : ¬chunks_count = -1)]
    unfold pySlice
    rw [if_pos (by omega : (0 : Int) ≤ chunks_count)]
    split
    · exact head?_take_cons (by omega) [] t
    · exact head?_take_cons (by omega) [] (t ++ [joinSp _])

/-- Witness for C9. -/
theorem oversized_first_sentence_empty_chunk_witness :
    (split_text_into_chunks ("one two three four. five.".data) (-1) 3).head? = some [] :=
  oversized_first_sentence_empty_chunk ("one two three four. five.".data) (-1) 3
    ("one two three four. ".data) ["five.".data] (by decide) (by decide) (Or.inl rfl)

/-- C10: in the batch runner's success hand-off, the uploaded video path is
built from the preset file's `video_title` with spaces replaced by dashes while
the thumbnail path is built from that same title unmodified, so for every
preset title containing a space the two paths name different directories; and
both paths are independent of the batch item's own `video_title`, which is
what named the generation output directory. -/
theorem upload_path_mismatch (itemTitle presetTitle : List Char) (hsp : ' ' ∈ presetTitle) :
    upload_video_path itemTitle presetTitle =
      pathJoin (replaceSpaceDash presetTitle) ("final_slideshow_with_audio.mp4".data) ∧
    upload_thumbnail_path itemTitle presetTitle = pathJoin presetTitle ("thumbnail.jpg".data) ∧
    replaceSpaceDash presetTitle ≠ presetTitle ∧
    (∀ otherItemTitle,
      upload_video_path otherItemTitle presetTitle = upload_video_path itemTitle presetTitle ∧
      upload_thumbnail_path otherItemTitle presetTitle =
        upload_thumbnail_path itemTitle presetTitle) ∧
    generation_output_dir itemTitle = replaceSpaceDash itemTitle :=
  ⟨rfl, rfl, replaceSpaceDash_ne hsp, fun _ => ⟨rfl, rfl⟩, rfl⟩

/-- Witness for C10. -/
theorem upload_path_mismatch_witness :
    upload_video_path ("Batch Item".data) ("My Video".data) =
      pathJoin (replaceSpaceDash ("My Video".data)) ("final_slideshow_with_audio.mp4".data) ∧
    upload_thumbnail_path ("Batch Item".data) ("My Video".data) =
      pathJoin ("My Video".data) ("thumbnail.jpg".data) ∧
    replaceSpaceDash ("My Video".data) ≠ ("My Video".data) ∧
    (∀ otherItemTitle,
      upload_video_path otherItemTitle ("My Video".data) =
        upload_video_path ("Batch Item".data) ("My Video".data) ∧
      upload_thumbnail_path otherItemTitle ("My Video".data) =
        upload_thumbnail_path ("Batch Item".data) ("My Video".data)) ∧
    generation_output_dir ("Batch Item".data) = replaceSpaceDash ("Batch Item".data) :=
  upload_path_mismatch ("Batch Item".data) ("My Video".data) (by decide)

end VideoGen
